import Mathlib

/-!
Verification development for the repository utility
src/utilities/use_only_IAM_access_controls/update_permission.py.

The script is a linear sequence of calls against a remote catalog /
permission service: it updates the data lake settings, deregisters all
storage locations, grants blanket permissions to the sentinel principal
IAM_ALLOWED_PRINCIPALS on the catalog and on every listed database and
table, and finally revokes every non-sentinel permission grant on
resources owned by the calling account.

The embedding below models the JSON-shaped records the service returns,
the mutating API calls the script issues (as a trace), and each loop of
the script as a Lean function, faithful to the Python source.  Remote
calls that can raise are modelled by failure predicates; the call to
revoke_permissions is the only one whose failure the script catches.
-/

namespace UpdatePermission

/-- JSON-like values as handled by the script: strings, lists, and
string-keyed dictionaries.  Dictionaries are insertion-ordered
association lists, matching Python dict iteration order. -/
inductive JVal where
  | str (s : String)
  | arr (elems : List JVal)
  | dict (fields : List (String × JVal))

/-- The fields of a dictionary-shaped record, in iteration order. -/
abbrev Record := List (String × JVal)

/-- Structural boolean equality of JSON values (Python ==). -/
def JVal.beq : JVal → JVal → Bool
  | .str a, .str b => a == b
  | .arr xs, .arr ys => go xs ys
  | .dict fs, .dict gs => goF fs gs
  | _, _ => false
where
  go : List JVal → List JVal → Bool
    | [], [] => true
    | x :: xs, y :: ys => JVal.beq x y && go xs ys
    | _, _ => false
  goF : List (String × JVal) → List (String × JVal) → Bool
    | [], [] => true
    | (k, v) :: fs, (l, w) :: gs => k == l && JVal.beq v w && goF fs gs
    | _, _ => false

theorem JVal.beq_refl : ∀ v : JVal, JVal.beq v v = true
  | .str s => by simp [JVal.beq]
  | .arr xs => by simpa [JVal.beq] using go_refl xs
  | .dict fs => by simpa [JVal.beq] using goF_refl fs
where
  go_refl : ∀ xs : List JVal, JVal.beq.go xs xs = true
    | [] => rfl
    | x :: xs => by simpa [JVal.beq.go] using ⟨JVal.beq_refl x, go_refl xs⟩
  goF_refl : ∀ fs : List (String × JVal), JVal.beq.goF fs fs = true
    | [] => rfl
    | (k, v) :: fs => by simpa [JVal.beq.goF] using ⟨JVal.beq_refl v, goF_refl fs⟩

/-- Python dictionary lookup d[k] on a record with distinct keys. -/
def dictLookup : Record → String → Option JVal
  | [], _ => none
  | (l, v) :: rest, k => if l = k then some v else dictLookup rest k

/-- Python dictionary assignment d[k] = v: overwrite the entry in place
when the key exists, otherwise append a new entry. -/
def dictSet : Record → String → JVal → Record
  | [], k, v => [(k, v)]
  | (l, w) :: rest, k, v => if l = k then (k, v) :: rest else (l, w) :: dictSet rest k v

/-- get_catalog_id(resource) from the source: scan the keys of the record
in iteration order; at the first entry whose value is a dict, return the
result of the recursive call on that dict, whatever it is; otherwise
return the value stored under the key CatalogId; if the loop falls
through, return None. -/
def getCatalogId : Record → Option JVal
  | [] => none
  | (k, v) :: rest =>
    match v with
    | .dict f => getCatalogId f
    | _ => if k = "CatalogId" then some v else getCatalogId rest

/-- Modelled from the spec: the claimed ownership condition, which holds
when a CatalogId entry whose value equals the account id appears nested
anywhere within the resource record, at any depth and under any key
structure.  Written from the words of the claim for comparison with
getCatalogId. -/
inductive ContainsCatalogId (acct : String) : Record → Prop where
  | head (rest : Record) : ContainsCatalogId acct (("CatalogId", .str acct) :: rest)
  | nested (k : String) (f : Record) (rest : Record) :
      ContainsCatalogId acct f → ContainsCatalogId acct ((k, .dict f) :: rest)
  | tail (k : String) (v : JVal) (rest : Record) :
      ContainsCatalogId acct rest → ContainsCatalogId acct ((k, v) :: rest)

/-- The comparison catalog_id != account_id performed by the revoke loop,
phrased positively: the value returned by get_catalog_id equals the
account id exactly when it is that very string (None or a value of any
other shape never equals a Python string). -/
def ownedCatalogId (acct : String) : Option JVal → Bool
  | some (.str s) => s == acct
  | _ => false

/-- The explicit pagination loop of steps 2 and 5: starting from the
result list of the first response, extend the accumulator with each
following page while the response still carries a NextToken. -/
def collectPages {α : Type} (acc : List α) : List (List α) → List α
  | [] => acc
  | page :: rest => collectPages (acc ++ page) rest

/-- Fetch every page of a paginated list call and concatenate the result
lists, as the while-loops of steps 2 and 5 do. -/
def fetchAllPages {α : Type} : List (List α) → List α
  | [] => []
  | first :: rest => collectPages first rest

/-- The boto3 paginator loop of step 4: start from an empty list and
extend it with the result list of every page. -/
def paginatorCollect {α : Type} (pages : List (List α)) : List α :=
  collectPages [] pages

theorem collectPages_eq {α : Type} (pages : List (List α)) :
    ∀ acc : List α, collectPages acc pages = acc ++ pages.flatten := by
  induction pages with
  | nil => intro acc; simp [collectPages]
  | cons page rest ih => intro acc; simp [collectPages, ih]

theorem fetchAllPages_eq {α : Type} (pages : List (List α)) :
    fetchAllPages pages = pages.flatten := by
  cases pages with
  | nil => simp [fetchAllPages]
  | cons first rest => simp [fetchAllPages, collectPages_eq]

theorem paginatorCollect_eq {α : Type} (pages : List (List α)) :
    paginatorCollect pages = pages.flatten := by
  simp [paginatorCollect, collectPages_eq]

/-- The sentinel principal identifier IAM_ALLOWED_PRINCIPALS. -/
def sentinelId : String := "IAM_ALLOWED_PRINCIPALS"

/-- The constant iam_allowed_principal from the source. -/
def iamAllowedPrincipal : JVal :=
  .dict [("DataLakePrincipalIdentifier", .str sentinelId)]

/-- The single-element permission list granting ALL to the sentinel
principal, the literal written in steps 1 and 4.2 of the source. -/
def sentinelAllGrant : JVal :=
  .arr [.dict [("Principal", iamAllowedPrincipal), ("Permissions", .arr [.str "ALL"])]]

/-- Step 1 of the source: set the two default-permission keys of the
fetched data lake settings to the sentinel/ALL grant, leaving every
other field of the fetched settings as it was. -/
def updatedDataLakeSettings (s : Record) : Record :=
  dictSet (dictSet s "CreateDatabaseDefaultPermissions" sentinelAllGrant)
    "CreateTableDefaultPermissions" sentinelAllGrant

/-- A Principal record of a listed permission, as the source reads it. -/
structure Principal where
  dataLakePrincipalIdentifier : String

/-- A PrincipalResourcePermissions record returned by list_permissions,
restricted to the four fields the source reads. -/
structure PermRecord where
  principal : Principal
  resource : Record
  permissions : List String
  permissionsWithGrantOption : List String

/-- Boolean equality of permission records, used to model the removal a
successful revoke_permissions call performs on the service state. -/
def PermRecord.beq (p q : PermRecord) : Bool :=
  p.principal.dataLakePrincipalIdentifier == q.principal.dataLakePrincipalIdentifier &&
  JVal.beq.goF p.resource q.resource &&
  p.permissions == q.permissions &&
  p.permissionsWithGrantOption == q.permissionsWithGrantOption

theorem PermRecord.beq_self (p : PermRecord) : PermRecord.beq p p = true := by
  simp [PermRecord.beq, JVal.beq_refl.goF_refl]

/-- An entry of ResourceInfoList from list_resources; the source reads
only its ResourceArn. -/
structure ResourceInfo where
  resourceArn : String

/-- A database record from get_databases, restricted to the fields the
source reads: Name, the presence of TargetDatabase (resource link), and
the optional Description, LocationUri and Parameters entries. -/
structure DatabaseRecord where
  name : String
  isResourceLink : Bool
  description : Option String
  locationUri : Option String
  parameters : Option (List (String × String))

/-- A table record from get_tables, restricted to the fields the source
reads: Name and the presence of TargetTable (resource link). -/
structure TableRecord where
  name : String
  isResourceLink : Bool

/-- The DatabaseInput dictionary built in step 4.2; the LocationUri key
is present exactly when the optional field is some. -/
structure DatabaseInput where
  name : String
  description : String
  locationUri : Option String
  parameters : List (String × String)
  createTableDefaultPermissions : JVal

/-- Step 4.2 of the source: build the DatabaseInput for update_database.
When the fetched LocationUri is present and non-empty it is carried
over; otherwise the key is omitted.  Description and Parameters default
to the empty string and the empty dict, and
CreateTableDefaultPermissions becomes the sentinel/ALL grant. -/
def buildDatabaseInput (d : DatabaseRecord) : DatabaseInput :=
  match d.locationUri with
  | some uri =>
    if uri ≠ "" then
      { name := d.name
        description := d.description.getD ""
        locationUri := some uri
        parameters := d.parameters.getD []
        createTableDefaultPermissions :=
          .arr [.dict [("Principal", iamAllowedPrincipal), ("Permissions", .arr [.str "ALL"])]] }
    else
      { name := d.name
        description := d.description.getD ""
        locationUri := none
        parameters := d.parameters.getD []
        createTableDefaultPermissions :=
          .arr [.dict [("Principal", iamAllowedPrincipal), ("Permissions", .arr [.str "ALL"])]] }
  | none =>
    { name := d.name
      description := d.description.getD ""
      locationUri := none
      parameters := d.parameters.getD []
      createTableDefaultPermissions :=
        .arr [.dict [("Principal", iamAllowedPrincipal), ("Permissions", .arr [.str "ALL"])]] }

/-- The Resource argument of the grant_permissions calls the source
builds: the whole catalog, a database by name, or a table by database
name and table name. -/
inductive LFResource where
  | catalog
  | database (name : String)
  | table (databaseName : String) (name : String)
  deriving DecidableEq

/-- A mutating remote call issued by the script.  revokePermissions
carries the listed permission record, whose four fields are exactly the
four keyword arguments of the call in the source. -/
inductive ApiCall where
  | putDataLakeSettings (s : Record)
  | deregisterResource (arn : String)
  | grantPermissions (principal : JVal) (resource : LFResource)
      (permissions : List String) (grantOption : List String)
  | updateDatabase (name : String) (input : DatabaseInput)
  | revokePermissions (p : PermRecord)

/-- The remote service as the script observes it: the fetched data lake
settings, the pages each paginated list call returns, the service-side
registered locations and permission records that the mutating calls act
on. -/
structure World where
  dataLakeSettings : Record
  resourcePages : List (List ResourceInfo)
  registeredArns : List String
  databasePages : List (List DatabaseRecord)
  tablePages : String → List (List TableRecord)
  permissionPages : List (List PermRecord)
  permState : List PermRecord

/-- Which remote calls raise an exception when issued. -/
structure Failures where
  putSettings : Bool
  dereg : String → Bool
  grant : LFResource → Bool
  updateDb : String → Bool
  revoke : PermRecord → Bool

/-- A Failures value under which every remote call succeeds. -/
def noFailures : Failures where
  putSettings := false
  dereg := fun _ => false
  grant := fun _ => false
  updateDb := fun _ => false
  revoke := fun _ => false

/-- Outcome of the confirmation prompt, fed a stream of answers. -/
inductive PromptResult where
  | proceed
  | exitZero
  | eofError
  deriving DecidableEq

/-- The lowercase conversion answer.lower() applied by the prompt,
written character-wise over the character list of the string. -/
def pyLower (s : String) : String := .mk (s.data.map Char.toLower)

/-- The recursive prompt function of the source: an answer whose
lowercase form is n or no exits with status 0; one whose lowercase form
is y or yes returns, letting the script proceed; any other answer asks
again with the next answer of the stream.  An exhausted stream models
input() raising end-of-file, which the script does not catch. -/
def promptLoop : List String → PromptResult
  | [] => .eofError
  | a :: rest =>
    if ["n", "no"].contains (pyLower a) then .exitZero
    else if ["y", "yes"].contains (pyLower a) then .proceed
    else promptLoop rest

/-- Sequencing of two phases: when the first ends normally the traces
concatenate and the second decides the outcome; when the first raises,
the second never runs. -/
def andThen (a b : List ApiCall × Bool) : List ApiCall × Bool :=
  if a.2 then (a.1 ++ b.1, b.2) else a

/-- Step 1: put the updated data lake settings. -/
def phase1 (w : World) (f : Failures) : List ApiCall × Bool :=
  ([.putDataLakeSettings (updatedDataLakeSettings w.dataLakeSettings)], !f.putSettings)

/-- The deregistration loop of step 2 over the collected resource list:
each iteration issues deregister_resource on the ResourceArn of the
record; a raised call terminates the script, a successful one removes
every registered location bearing that ARN.  Returns the trace, the
remaining registered locations and the normal-completion flag. -/
def deregLoop (f : Failures) : List String → List ResourceInfo → List ApiCall × List String × Bool
  | regs, [] => ([], regs, true)
  | regs, r :: rest =>
    if f.dereg r.resourceArn then ([.deregisterResource r.resourceArn], regs, false)
    else
      (.deregisterResource r.resourceArn ::
        (deregLoop f (regs.filter fun a => a ≠ r.resourceArn) rest).1,
       (deregLoop f (regs.filter fun a => a ≠ r.resourceArn) rest).2)

/-- Step 2: fetch every page of list_resources, then deregister each
listed resource. -/
def phase2 (w : World) (f : Failures) : List ApiCall × Bool :=
  ((deregLoop f w.registeredArns (fetchAllPages w.resourcePages)).1,
   (deregLoop f w.registeredArns (fetchAllPages w.resourcePages)).2.2)

/-- Step 3: grant CREATE_DATABASE on the catalog to the sentinel. -/
def phase3 (f : Failures) : List ApiCall × Bool :=
  ([.grantPermissions iamAllowedPrincipal .catalog ["CREATE_DATABASE"] []],
   !f.grant .catalog)

/-- The inner loop of step 4.3 over the collected tables of a database:
skip resource links, grant ALL on every other table to the sentinel. -/
def tableLoop (f : Failures) (dbName : String) : List TableRecord → List ApiCall × Bool
  | [] => ([], true)
  | t :: rest =>
    if t.isResourceLink then tableLoop f dbName rest
    else if f.grant (.table dbName t.name) then
      ([.grantPermissions iamAllowedPrincipal (.table dbName t.name) ["ALL"] []], false)
    else
      (.grantPermissions iamAllowedPrincipal (.table dbName t.name) ["ALL"] [] ::
        (tableLoop f dbName rest).1,
       (tableLoop f dbName rest).2)

/-- The loop of step 4 over the collected databases: skip resource
links; otherwise grant ALL on the database, update its
CreateTableDefaultPermissions via update_database, then process its
tables.  Any raise terminates the script. -/
def databaseLoop (f : Failures) (tables : String → List (List TableRecord)) :
    List DatabaseRecord → List ApiCall × Bool
  | [] => ([], true)
  | d :: rest =>
    if d.isResourceLink then databaseLoop f tables rest
    else if f.grant (.database d.name) then
      ([.grantPermissions iamAllowedPrincipal (.database d.name) ["ALL"] []], false)
    else if f.updateDb d.name then
      ([.grantPermissions iamAllowedPrincipal (.database d.name) ["ALL"] [],
        .updateDatabase d.name (buildDatabaseInput d)], false)
    else if (tableLoop f d.name (paginatorCollect (tables d.name))).2 then
      (.grantPermissions iamAllowedPrincipal (.database d.name) ["ALL"] [] ::
        .updateDatabase d.name (buildDatabaseInput d) ::
        ((tableLoop f d.name (paginatorCollect (tables d.name))).1 ++
          (databaseLoop f tables rest).1),
       (databaseLoop f tables rest).2)
    else
      (.grantPermissions iamAllowedPrincipal (.database d.name) ["ALL"] [] ::
        .updateDatabase d.name (buildDatabaseInput d) ::
        (tableLoop f d.name (paginatorCollect (tables d.name))).1,
       false)

/-- Step 4: collect the database pages and run the database loop. -/
def phase4 (w : World) (f : Failures) : List ApiCall × Bool :=
  databaseLoop f w.tablePages (paginatorCollect w.databasePages)

/-- The two guards of the revoke loop, in source order: a record is
acted on when its principal differs from the sentinel and the catalog id
located by get_catalog_id equals the account id. -/
def shouldRevoke (acct : String) (p : PermRecord) : Bool :=
  if p.principal.dataLakePrincipalIdentifier = sentinelId then false
  else if ownedCatalogId acct (getCatalogId p.resource) = false then false
  else true

/-- The loop of step 5 over the collected permission records, acting on
the service-side permission state: sentinel records and records whose
located catalog id differs from the account id are skipped;
revoke_permissions is attempted on every other record; a raise from it
is caught and the loop continues with the state unchanged, while a
successful call removes the matching record from the state.  Returns
the trace of attempted revoke calls and the final state. -/
def revokeLoop (acct : String) (f : Failures) :
    List PermRecord → List PermRecord → List ApiCall × List PermRecord
  | state, [] => ([], state)
  | state, p :: rest =>
    if p.principal.dataLakePrincipalIdentifier = sentinelId then
      revokeLoop acct f state rest
    else if ownedCatalogId acct (getCatalogId p.resource) = false then
      revokeLoop acct f state rest
    else if f.revoke p then
      (.revokePermissions p :: (revokeLoop acct f state rest).1,
       (revokeLoop acct f state rest).2)
    else
      (.revokePermissions p ::
        (revokeLoop acct f (state.filter fun q => !(PermRecord.beq q p)) rest).1,
       (revokeLoop acct f (state.filter fun q => !(PermRecord.beq q p)) rest).2)

/-- Step 5: fetch every page of list_permissions, then run the revoke
loop; it also yields the final permission state of the service. -/
def phase5Run (acct : String) (w : World) (f : Failures) :
    List ApiCall × List PermRecord :=
  revokeLoop acct f w.permState (fetchAllPages w.permissionPages)

/-- Step 5 as a phase: every raise inside it is caught, so it always
completes normally. -/
def phase5 (acct : String) (w : World) (f : Failures) : List ApiCall × Bool :=
  ((phase5Run acct w f).1, true)

/-- The script body after the confirmation prompt: steps 1 to 5 in
order, stopping at the first uncaught raise. -/
def runAfterConfirm (acct : String) (w : World) (f : Failures) : List ApiCall × Bool :=
  andThen (phase1 w f)
    (andThen (phase2 w f)
      (andThen (phase3 f)
        (andThen (phase4 w f) (phase5 acct w f))))

/-- How a full invocation of the script ends. -/
inductive RunOutcome where
  | exitedZero
  | completed
  | errored
  deriving DecidableEq

/-- A full invocation: the confirmation prompt runs before any mutating
call; declining exits with status 0, an exhausted input stream raises,
and confirming runs the five steps. -/
def runProgram (answers : List String) (acct : String) (w : World) (f : Failures) :
    List ApiCall × RunOutcome :=
  match promptLoop answers with
  | .exitZero => ([], .exitedZero)
  | .eofError => ([], .errored)
  | .proceed =>
    ((runAfterConfirm acct w f).1,
     if (runAfterConfirm acct w f).2 then .completed else .errored)

theorem shouldRevoke_eq_true (acct : String) (p : PermRecord) :
    shouldRevoke acct p = true ↔
      p.principal.dataLakePrincipalIdentifier ≠ sentinelId ∧
      ownedCatalogId acct (getCatalogId p.resource) = true := by
  unfold shouldRevoke
  split
  · simp_all
  · split <;> simp_all

theorem revokeLoop_trace (acct : String) (f : Failures) :
    ∀ (ps st : List PermRecord),
      (revokeLoop acct f st ps).1 =
        (ps.filter (shouldRevoke acct)).map (fun p => ApiCall.revokePermissions p) := by
  intro ps
  induction ps with
  | nil => intro st; simp [revokeLoop]
  | cons p rest ih =>
    intro st
    by_cases h1 : p.principal.dataLakePrincipalIdentifier = sentinelId
    · simp [revokeLoop, h1, shouldRevoke, ih]
    · by_cases h2 : ownedCatalogId acct (getCatalogId p.resource) = false
      · simp [revokeLoop, h1, h2, shouldRevoke, ih]
      · by_cases h3 : f.revoke p = true
        · simp [revokeLoop, h1, h2, h3, shouldRevoke, ih]
        · simp [revokeLoop, h1, h2, h3, shouldRevoke, ih]

theorem revokeLoop_state_subset (acct : String) (f : Failures) :
    ∀ (ps st : List PermRecord) (q : PermRecord),
      q ∈ (revokeLoop acct f st ps).2 → q ∈ st := by
  intro ps
  induction ps with
  | nil => intro st q h; simpa [revokeLoop] using h
  | cons p rest ih =>
    intro st q h
    simp only [revokeLoop] at h
    split at h
    · exact ih st q h
    · split at h
      · exact ih st q h
      · split at h
        · exact ih st q h
        · exact List.mem_of_mem_filter (ih _ q h)

theorem revokeLoop_removed (acct : String) (f : Failures)
    (hf : ∀ p, f.revoke p = false) :
    ∀ (ps st : List PermRecord) (q : PermRecord),
      q ∈ ps → shouldRevoke acct q = true → q ∉ (revokeLoop acct f st ps).2 := by
  intro ps
  induction ps with
  | nil => intro st q hq; simp at hq
  | cons p rest ih =>
    intro st q hq hsr hmem
    rcases List.mem_cons.mp hq with rfl | hq'
    · obtain ⟨h1, h2⟩ := (shouldRevoke_eq_true acct q).mp hsr
      simp only [revokeLoop, if_neg h1, h2, hf] at hmem
      simp only [Bool.true_eq_false, if_false] at hmem
      have hsub := revokeLoop_state_subset acct f rest _ q hmem
      have := List.mem_filter.mp hsub
      simp [PermRecord.beq_self] at this
    · simp only [revokeLoop] at hmem
      split at hmem
      · exact ih st q hq' hsr hmem
      · split at hmem
        · exact ih st q hq' hsr hmem
        · split at hmem
          · exact ih st q hq' hsr hmem
          · exact ih _ q hq' hsr hmem

theorem dictLookup_dictSet_self (s : Record) (k : String) (v : JVal) :
    dictLookup (dictSet s k v) k = some v := by
  induction s with
  | nil => simp [dictSet, dictLookup]
  | cons e rest ih =>
    obtain ⟨l, w⟩ := e
    by_cases h : l = k
    · simp [dictSet, dictLookup, h]
    · simp [dictSet, dictLookup, h, ih]

theorem dictLookup_dictSet_other (s : Record) (k l : String) (v : JVal) (h : l ≠ k) :
    dictLookup (dictSet s k v) l = dictLookup s l := by
  induction s with
  | nil => simp [dictSet, dictLookup, Ne.symm h]
  | cons e rest ih =>
    obtain ⟨m, w⟩ := e
    by_cases hm : m = k
    · subst hm
      simp [dictSet, dictLookup, Ne.symm h]
    · by_cases hl : m = l
      · simp [dictSet, dictLookup, hm, hl, h]
      · simp [dictSet, dictLookup, hm, hl, ih]

theorem deregLoop_trace (f : Failures) :
    ∀ (rs : List ResourceInfo) (regs : List String),
      (∀ r ∈ rs, f.dereg r.resourceArn = false) →
      (deregLoop f regs rs).1 = rs.map (fun r => ApiCall.deregisterResource r.resourceArn) := by
  intro rs
  induction rs with
  | nil => intro regs _; simp [deregLoop]
  | cons r rest ih =>
    intro regs hf
    have h0 : f.dereg r.resourceArn = false := hf r (by simp)
    simp [deregLoop, h0, ih _ (fun x hx => hf x (by simp [hx]))]

theorem deregLoop_state_empty (f : Failures) :
    ∀ (rs : List ResourceInfo) (regs : List String),
      (∀ r ∈ rs, f.dereg r.resourceArn = false) →
      (∀ a ∈ regs, a ∈ rs.map (fun r => r.resourceArn)) →
      (deregLoop f regs rs).2.1 = [] := by
  intro rs
  induction rs with
  | nil =>
    intro regs _ hsub
    simp only [deregLoop]
    exact List.eq_nil_iff_forall_not_mem.mpr (fun a ha => by simpa using hsub a ha)
  | cons r rest ih =>
    intro regs hf hsub
    have h0 : f.dereg r.resourceArn = false := hf r (by simp)
    simp only [deregLoop, h0, Bool.false_eq_true, if_false]
    apply ih _ (fun x hx => hf x (by simp [hx]))
    intro a ha
    have hmf := List.mem_filter.mp ha
    have hne : a ≠ r.resourceArn := by simpa using hmf.2
    have := hsub a hmf.1
    simp only [List.map_cons, List.mem_cons] at this
    rcases this with h | h
    · exact absurd h hne
    · exact h

theorem andThen_ok (a b : List ApiCall × Bool) : (andThen a b).2 = (a.2 && b.2) := by
  unfold andThen
  split <;> simp_all

theorem andThen_mem (a b : List ApiCall × Bool) (c : ApiCall) :
    c ∈ (andThen a b).1 → c ∈ a.1 ∨ c ∈ b.1 := by
  unfold andThen
  split
  · exact fun h => List.mem_append.mp h
  · exact fun h => Or.inl h

theorem tableLoop_mem (f : Failures) (dbName : String) :
    ∀ (ts : List TableRecord) (c : ApiCall), c ∈ (tableLoop f dbName ts).1 →
      ∃ t, t ∈ ts ∧ t.isResourceLink = false ∧
        c = .grantPermissions iamAllowedPrincipal (.table dbName t.name) ["ALL"] [] := by
  intro ts
  induction ts with
  | nil => intro c h; simp [tableLoop] at h
  | cons t rest ih =>
    intro c h
    simp only [tableLoop] at h
    split at h
    · obtain ⟨t', ht', hl, hc⟩ := ih c h
      exact ⟨t', List.mem_cons_of_mem _ ht', hl, hc⟩
    · rename_i hlink
      split at h
      · simp only [List.mem_singleton] at h
        exact ⟨t, List.mem_cons_self _ _, by simpa using hlink, h⟩
      · rcases List.mem_cons.mp h with rfl | h'
        · exact ⟨t, List.mem_cons_self _ _, by simpa using hlink, rfl⟩
        · obtain ⟨t', ht', hl, hc⟩ := ih c h'
          exact ⟨t', List.mem_cons_of_mem _ ht', hl, hc⟩

theorem tableLoop_ok (f : Failures) (dbName : String) :
    ∀ ts : List TableRecord,
      (tableLoop f dbName ts).2 = true ↔
        ∀ t ∈ ts, t.isResourceLink = false → f.grant (.table dbName t.name) = false := by
  intro ts
  induction ts with
  | nil => simp [tableLoop]
  | cons t rest ih =>
    simp only [tableLoop]
    rw [List.forall_mem_cons]
    split
    · rename_i hl
      simp [hl, ih]
    · rename_i hl
      have hlf : t.isResourceLink = false := by simpa using hl
      split
      · rename_i hg
        simp [hlf, hg]
      · rename_i hg
        have hgf : f.grant (.table dbName t.name) = false := by simpa using hg
        simp [hlf, hgf, ih]

theorem databaseLoop_mem (f : Failures) (tables : String → List (List TableRecord)) :
    ∀ (ds : List DatabaseRecord) (c : ApiCall), c ∈ (databaseLoop f tables ds).1 →
      ∃ d, d ∈ ds ∧ d.isResourceLink = false ∧
        (c = .grantPermissions iamAllowedPrincipal (.database d.name) ["ALL"] [] ∨
         c = .updateDatabase d.name (buildDatabaseInput d) ∨
         ∃ t, t ∈ paginatorCollect (tables d.name) ∧ t.isResourceLink = false ∧
           c = .grantPermissions iamAllowedPrincipal (.table d.name t.name) ["ALL"] []) := by
  intro ds
  induction ds with
  | nil => intro c h; simp [databaseLoop] at h
  | cons d rest ih =>
    intro c h
    simp only [databaseLoop] at h
    split at h
    · obtain ⟨d', hd', hrest⟩ := ih c h
      exact ⟨d', List.mem_cons_of_mem _ hd', hrest⟩
    · rename_i hl
      have hlf : d.isResourceLink = false := by simpa using hl
      split at h
      · simp only [List.mem_singleton] at h
        exact ⟨d, List.mem_cons_self _ _, hlf, Or.inl h⟩
      · split at h
        · rcases List.mem_cons.mp h with rfl | h'
          · exact ⟨d, List.mem_cons_self _ _, hlf, Or.inl rfl⟩
          · simp only [List.mem_singleton] at h'
            exact ⟨d, List.mem_cons_self _ _, hlf, Or.inr (Or.inl h')⟩
        · split at h
          · rcases List.mem_cons.mp h with rfl | h'
            · exact ⟨d, List.mem_cons_self _ _, hlf, Or.inl rfl⟩
            · rcases List.mem_cons.mp h' with rfl | h''
              · exact ⟨d, List.mem_cons_self _ _, hlf, Or.inr (Or.inl rfl)⟩
              · rcases List.mem_append.mp h'' with hT | hR
                · obtain ⟨t, ht, htl, hc⟩ := tableLoop_mem f d.name _ c hT
                  exact ⟨d, List.mem_cons_self _ _, hlf, Or.inr (Or.inr ⟨t, ht, htl, hc⟩)⟩
                · obtain ⟨d', hd', hrest⟩ := ih c hR
                  exact ⟨d', List.mem_cons_of_mem _ hd', hrest⟩
          · rcases List.mem_cons.mp h with rfl | h'
            · exact ⟨d, List.mem_cons_self _ _, hlf, Or.inl rfl⟩
            · rcases List.mem_cons.mp h' with rfl | h''
              · exact ⟨d, List.mem_cons_self _ _, hlf, Or.inr (Or.inl rfl)⟩
              · obtain ⟨t, ht, htl, hc⟩ := tableLoop_mem f d.name _ c h''
                exact ⟨d, List.mem_cons_self _ _, hlf, Or.inr (Or.inr ⟨t, ht, htl, hc⟩)⟩

theorem databaseLoop_ok (f : Failures) (tables : String → List (List TableRecord)) :
    ∀ ds : List DatabaseRecord,
      (databaseLoop f tables ds).2 = true ↔
        ∀ d ∈ ds, d.isResourceLink = false →
          f.grant (.database d.name) = false ∧ f.updateDb d.name = false ∧
          ∀ t ∈ paginatorCollect (tables d.name), t.isResourceLink = false →
            f.grant (.table d.name t.name) = false := by
  intro ds
  induction ds with
  | nil => simp [databaseLoop]
  | cons d rest ih =>
    simp only [databaseLoop]
    rw [List.forall_mem_cons]
    split
    · rename_i hl
      simp [hl, ih]
    · rename_i hl
      have hlf : d.isResourceLink = false := by simpa using hl
      split
      · rename_i hg
        simp [hlf, hg]
      · rename_i hg
        have hgf : f.grant (.database d.name) = false := by simpa using hg
        split
        · rename_i hu
          simp [hlf, hgf, hu]
        · rename_i hu
          have huf : f.updateDb d.name = false := by simpa using hu
          split
          · rename_i ht
            simp [hlf, hgf, huf, ih]
            exact fun _ => (tableLoop_ok f d.name _).mp ht
          · rename_i ht
            simp only [Bool.false_eq_true, false_iff]
            intro hcontra
            exact ht ((tableLoop_ok f d.name _).mpr ((hcontra.1 hlf).2.2))

theorem deregLoop_ok (f : Failures) :
    ∀ (rs : List ResourceInfo) (regs : List String),
      (deregLoop f regs rs).2.2 = true ↔ ∀ r ∈ rs, f.dereg r.resourceArn = false := by
  intro rs
  induction rs with
  | nil => intro regs; simp [deregLoop]
  | cons r rest ih =>
    intro regs
    simp only [deregLoop]
    rw [List.forall_mem_cons]
    split
    · rename_i hd
      simp [hd]
    · rename_i hd
      have hdf : f.dereg r.resourceArn = false := by simpa using hd
      simp [hdf, ih]

theorem deregLoop_mem (f : Failures) :
    ∀ (rs : List ResourceInfo) (regs : List String) (c : ApiCall),
      c ∈ (deregLoop f regs rs).1 → ∃ arn, c = ApiCall.deregisterResource arn := by
  intro rs
  induction rs with
  | nil => intro regs c h; simp [deregLoop] at h
  | cons r rest ih =>
    intro regs c h
    simp only [deregLoop] at h
    split at h
    · simp only [List.mem_singleton] at h
      exact ⟨r.resourceArn, h⟩
    · rcases List.mem_cons.mp h with rfl | h'
      · exact ⟨r.resourceArn, rfl⟩
      · exact ih _ c h'

theorem revokeLoop_trace_mem (acct : String) (f : Failures) (st ps : List PermRecord)
    (p : PermRecord) :
    ApiCall.revokePermissions p ∈ (revokeLoop acct f st ps).1 ↔
      p ∈ ps ∧ p.principal.dataLakePrincipalIdentifier ≠ sentinelId ∧
      ownedCatalogId acct (getCatalogId p.resource) = true := by
  rw [revokeLoop_trace]
  constructor
  · intro h
    obtain ⟨q, hq, heq⟩ := List.mem_map.mp h
    obtain ⟨hqmem, hsr⟩ := List.mem_filter.mp hq
    obtain rfl : q = p := by injection heq
    exact ⟨hqmem, (shouldRevoke_eq_true acct _).mp hsr⟩
  · rintro ⟨hp, h1, h2⟩
    exact List.mem_map.mpr
      ⟨p, List.mem_filter.mpr ⟨hp, (shouldRevoke_eq_true acct p).mpr ⟨h1, h2⟩⟩, rfl⟩

/-- Every remote call other than revoke_permissions that the script
would attempt succeeds: the settings put of step 1, the deregistration
of every listed resource, the catalog grant of step 3, and for every
listed non-link database its grant, its update_database call and the
grant on each of its listed non-link tables. -/
def nonRevokeOk (w : World) (f : Failures) : Prop :=
  f.putSettings = false ∧
  (∀ r ∈ fetchAllPages w.resourcePages, f.dereg r.resourceArn = false) ∧
  f.grant .catalog = false ∧
  (∀ d ∈ paginatorCollect w.databasePages, d.isResourceLink = false →
    f.grant (.database d.name) = false ∧ f.updateDb d.name = false ∧
    ∀ t ∈ paginatorCollect (w.tablePages d.name), t.isResourceLink = false →
      f.grant (.table d.name t.name) = false)

theorem runAfterConfirm_ok (acct : String) (w : World) (f : Failures) :
    (runAfterConfirm acct w f).2 = true ↔ nonRevokeOk w f := by
  unfold runAfterConfirm
  simp only [andThen_ok, Bool.and_eq_true, phase1, phase2, phase3, phase4, phase5]
  rw [deregLoop_ok, databaseLoop_ok]
  unfold nonRevokeOk
  simp [Bool.not_eq_true', and_assoc]

/-- A non-sentinel permission record on a database of account
111122223333, used to instantiate the theorems on concrete data. -/
def pAlice : PermRecord where
  principal := ⟨"arn:aws:iam::111122223333:role/alice"⟩
  resource := [("Database", .dict [("CatalogId", .str "111122223333"), ("Name", .str "salesdb")])]
  permissions := ["SELECT"]
  permissionsWithGrantOption := []

/-- A sentinel permission record on the same database. -/
def pSentinel : PermRecord where
  principal := ⟨sentinelId⟩
  resource := [("Database", .dict [("CatalogId", .str "111122223333"), ("Name", .str "salesdb")])]
  permissions := ["ALL"]
  permissionsWithGrantOption := []

/-- A small concrete database record. -/
def sampleDb : DatabaseRecord where
  name := "salesdb"
  isResourceLink := false
  description := some "sales data"
  locationUri := some "s3://bucket-one/sales"
  parameters := some [("classification", "csv")]

/-- A small concrete service state used to instantiate the theorems. -/
def sampleWorld : World where
  dataLakeSettings := [("DataLakeAdmins", .arr [.str "arn:admin"])]
  resourcePages := [[⟨"arn:aws:s3:::bucket-one"⟩], [⟨"arn:aws:s3:::bucket-two"⟩]]
  registeredArns := ["arn:aws:s3:::bucket-one", "arn:aws:s3:::bucket-two"]
  databasePages := [[sampleDb, ⟨"linkdb", true, none, none, none⟩]]
  tablePages := fun _ => [[⟨"orders", false⟩, ⟨"linktable", true⟩]]
  permissionPages := [[pSentinel, pAlice]]
  permState := [pSentinel, pAlice]

/-- C6: for every paginated list operation of the script, the collection
handed to the subsequent processing loop equals the concatenation of the
result lists of all pages.  This covers the NextToken while-loops of
steps 2 and 5 (fetchAllPages) and the paginator loops of step 4
(paginatorCollect); in the embedding the collection is completed before
any record is processed, as in the source. -/
theorem claim_C6 {α : Type} (pages : List (List α)) :
    fetchAllPages pages = pages.flatten ∧ paginatorCollect pages = pages.flatten :=
  ⟨fetchAllPages_eq pages, paginatorCollect_eq pages⟩

/-- C7: step 1 puts back the fetched data lake settings with
CreateDatabaseDefaultPermissions and CreateTableDefaultPermissions each
set to exactly the single-element sentinel/ALL grant, every other field
of the fetched settings kept unchanged. -/
theorem claim_C7 (w : World) (f : Failures) :
    (phase1 w f).1 = [.putDataLakeSettings (updatedDataLakeSettings w.dataLakeSettings)] ∧
    ∀ s : Record,
      dictLookup (updatedDataLakeSettings s) "CreateDatabaseDefaultPermissions" =
        some sentinelAllGrant ∧
      dictLookup (updatedDataLakeSettings s) "CreateTableDefaultPermissions" =
        some sentinelAllGrant ∧
      ∀ k, k ≠ "CreateDatabaseDefaultPermissions" → k ≠ "CreateTableDefaultPermissions" →
        dictLookup (updatedDataLakeSettings s) k = dictLookup s k := by
  refine ⟨rfl, fun s => ⟨?_, ?_, ?_⟩⟩
  · unfold updatedDataLakeSettings
    rw [dictLookup_dictSet_other _ _ _ _ (by decide), dictLookup_dictSet_self]
  · exact dictLookup_dictSet_self _ _ _
  · intro k h1 h2
    unfold updatedDataLakeSettings
    rw [dictLookup_dictSet_other _ _ _ _ h2, dictLookup_dictSet_other _ _ _ _ h1]

/-- Witness for C7 at a concrete settings record and a concrete third
key. -/
theorem claim_C7_witness :
    dictLookup (updatedDataLakeSettings [("DataLakeAdmins", .arr [.str "arn:admin"])])
      "CreateDatabaseDefaultPermissions" = some sentinelAllGrant ∧
    dictLookup (updatedDataLakeSettings [("DataLakeAdmins", .arr [.str "arn:admin"])])
      "DataLakeAdmins" = some (.arr [.str "arn:admin"]) := by
  refine ⟨((claim_C7 sampleWorld noFailures).2 _).1, ?_⟩
  rw [((claim_C7 sampleWorld noFailures).2 [("DataLakeAdmins", .arr [.str "arn:admin"])]).2.2
    "DataLakeAdmins" (by decide) (by decide)]
  simp [dictLookup]

/-- C3: for every sequence of answers, an answer whose lowercase form is
n or no makes the whole program exit with status 0 and an empty trace of
mutating calls; one whose lowercase form is y or yes makes the prompt
return so execution proceeds; any other answer makes the prompt consume
the next answer of the stream. -/
theorem claim_C3 (a : String) (rest : List String) (acct : String) (w : World) (f : Failures) :
    (["n", "no"].contains (pyLower a) = true →
      runProgram (a :: rest) acct w f = ([], .exitedZero)) ∧
    (["y", "yes"].contains (pyLower a) = true → promptLoop (a :: rest) = .proceed) ∧
    (["n", "no"].contains (pyLower a) = false → ["y", "yes"].contains (pyLower a) = false →
      promptLoop (a :: rest) = promptLoop rest) := by
  refine ⟨fun h => ?_, fun h => ?_, fun h1 h2 => ?_⟩
  · simp only [runProgram, promptLoop]
    rw [if_pos h]
  · have h' : pyLower a = "y" ∨ pyLower a = "yes" := by simpa using h
    have hn : ["n", "no"].contains (pyLower a) = false := by
      rcases h' with h'' | h'' <;> simp [h'']
    simp only [promptLoop]
    rw [if_neg (by simpa using hn), if_pos h]
  · simp only [promptLoop]
    rw [if_neg (by simpa using h1), if_neg (by simpa using h2)]

/-- Witness for C3: a non-answer is re-prompted and a subsequent NO
exits with status 0 and no mutating calls. -/
theorem claim_C3_witness :
    runProgram ["maybe", "NO"] "111122223333" sampleWorld noFailures = ([], .exitedZero) := by
  have h3 := (claim_C3 "maybe" ["NO"] "111122223333" sampleWorld noFailures).2.2
    (by decide) (by decide)
  have h1 := (claim_C3 "NO" [] "111122223333" sampleWorld noFailures).1 (by decide)
  simp only [runProgram] at h1 ⊢
  rw [h3]
  exact h1

/-- C8: when the listing of step 2 reflects the registered locations and
no deregister call fails, the loop issues deregister_resource once for
each listed resource ARN and afterwards no registered storage location
remains. -/
theorem claim_C8 (w : World) (f : Failures)
    (hlist : (fetchAllPages w.resourcePages).map (fun r => r.resourceArn) = w.registeredArns)
    (hf : ∀ a, f.dereg a = false) :
    (deregLoop f w.registeredArns (fetchAllPages w.resourcePages)).2.1 = [] ∧
    (deregLoop f w.registeredArns (fetchAllPages w.resourcePages)).1 =
      (fetchAllPages w.resourcePages).map (fun r => ApiCall.deregisterResource r.resourceArn) := by
  constructor
  · apply deregLoop_state_empty f _ _ (fun r _ => hf r.resourceArn)
    intro a ha
    rw [← hlist] at ha
    exact ha
  · exact deregLoop_trace f _ _ (fun r _ => hf r.resourceArn)

/-- Witness for C8 at the concrete sample state. -/
theorem claim_C8_witness :
    (deregLoop noFailures sampleWorld.registeredArns
      (fetchAllPages sampleWorld.resourcePages)).2.1 = [] ∧
    (deregLoop noFailures sampleWorld.registeredArns
      (fetchAllPages sampleWorld.resourcePages)).1 =
      (fetchAllPages sampleWorld.resourcePages).map
        (fun r => ApiCall.deregisterResource r.resourceArn) :=
  claim_C8 sampleWorld noFailures rfl (fun _ => rfl)

/-- C10: when get_catalog_id finds no CatalogId along its single search
path it returns None, which never equals the account id, so the revoke
loop never attempts revoke_permissions on such a record. -/
theorem claim_C10 (acct : String) (f : Failures) (st ps : List PermRecord) (p : PermRecord)
    (h : getCatalogId p.resource = none) :
    ApiCall.revokePermissions p ∉ (revokeLoop acct f st ps).1 := by
  intro hmem
  have hc := (revokeLoop_trace_mem acct f st ps p).mp hmem
  rw [h] at hc
  simpa [ownedCatalogId] using hc.2.2

/-- A permission record whose resource carries no CatalogId anywhere on
the search path of get_catalog_id. -/
def pNoCatalog : PermRecord where
  principal := ⟨"arn:aws:iam::111122223333:role/bob"⟩
  resource := [("Database", .dict [("Name", .str "salesdb")])]
  permissions := ["SELECT"]
  permissionsWithGrantOption := []

/-- Witness for C10 at a concrete record without a reachable CatalogId. -/
theorem claim_C10_witness :
    ApiCall.revokePermissions pNoCatalog ∉
      (revokeLoop "111122223333" noFailures [pNoCatalog] [pNoCatalog]).1 :=
  claim_C10 "111122223333" noFailures [pNoCatalog] [pNoCatalog] pNoCatalog
    (by simp only [pNoCatalog]; simp [getCatalogId])

/-- C1 (amended): in the revoke loop, revoke_permissions is attempted on
a record exactly when the record is among the listed permissions, its
principal is not the sentinel, and get_catalog_id applied to its
resource returns precisely the account id string.  get_catalog_id
follows a single search path, recursing into the first dict-valued
entry of each record it visits and otherwise returning the value at key
CatalogId, so a CatalogId entry that appears after a dict-valued
sibling is never consulted. -/
theorem claim_C1 (acct : String) (f : Failures) (st ps : List PermRecord) (p : PermRecord) :
    ApiCall.revokePermissions p ∈ (revokeLoop acct f st ps).1 ↔
      p ∈ ps ∧ p.principal.dataLakePrincipalIdentifier ≠ sentinelId ∧
      ownedCatalogId acct (getCatalogId p.resource) = true :=
  revokeLoop_trace_mem acct f st ps p

/-- Witness for the amended C1 at a concrete eligible record: the
revoke call on it is attempted. -/
theorem claim_C1_witness :
    ApiCall.revokePermissions pAlice ∈
      (revokeLoop "111122223333" noFailures [pAlice] [pAlice]).1 := by
  apply (claim_C1 "111122223333" noFailures [pAlice] [pAlice] pAlice).mpr
  refine ⟨List.mem_singleton_self _, ?_, ?_⟩
  · simp only [pAlice]
    simp [sentinelId]
  · rw [show getCatalogId pAlice.resource = some (.str "111122223333") from by
      simp only [pAlice]; simp [getCatalogId]]
    rfl

/-- A permission record whose resource contains a CatalogId entry equal
to the account id at top level, placed after a dict-valued sibling
entry: get_catalog_id recurses into the sibling and never sees it. -/
def cxRecord : PermRecord where
  principal := ⟨"arn:aws:iam::111122223333:role/alice"⟩
  resource := [("A", .dict [("X", .str "v")]), ("CatalogId", .str "111122223333")]
  permissions := ["SELECT"]
  permissionsWithGrantOption := []

/-- Counterexample to C1 as stated: this record contains a CatalogId
equal to the account id nested within its resource and its principal is
not the sentinel, yet the revoke loop attempts no call on it. -/
theorem claim_C1_cex :
    ContainsCatalogId "111122223333" cxRecord.resource ∧
    cxRecord.principal.dataLakePrincipalIdentifier ≠ sentinelId ∧
    (revokeLoop "111122223333" noFailures [cxRecord] [cxRecord]).1 = [] := by
  have hcat : getCatalogId cxRecord.resource = none := by
    simp only [cxRecord]
    simp [getCatalogId]
  refine ⟨.tail _ _ _ (.head []), ?_, ?_⟩
  · simp only [cxRecord]
    simp [sentinelId]
  · rw [revokeLoop]
    rw [if_neg (show ¬(cxRecord.principal.dataLakePrincipalIdentifier = sentinelId) from
      by simp only [cxRecord]; simp [sentinelId])]
    rw [if_pos (show ownedCatalogId "111122223333" (getCatalogId cxRecord.resource) = false from
      by rw [hcat]; rfl)]
    rw [revokeLoop]

/-- C2: after a run in which the listing of step 5 reflects the service
permission state and no revoke call fails, every permission record still
present on a resource whose located catalog id equals the account id has
the sentinel principal: no non-sentinel grant on an owned resource
survives. -/
theorem claim_C2 (acct : String) (w : World) (f : Failures)
    (hlist : fetchAllPages w.permissionPages = w.permState)
    (hf : ∀ p, f.revoke p = false) :
    ∀ q ∈ (phase5Run acct w f).2,
      ownedCatalogId acct (getCatalogId q.resource) = true →
      q.principal.dataLakePrincipalIdentifier = sentinelId := by
  intro q hq howned
  simp only [phase5Run] at hq
  by_contra hne
  have hsr : shouldRevoke acct q = true := (shouldRevoke_eq_true acct q).mpr ⟨hne, howned⟩
  have hst : q ∈ w.permState := revokeLoop_state_subset acct f _ _ q hq
  have hps : q ∈ fetchAllPages w.permissionPages := by rw [hlist]; exact hst
  exact revokeLoop_removed acct f hf _ _ q hps hsr hq

/-- A service state holding a single sentinel permission record, used to
instantiate the revoke-phase theorem. -/
def worldC2 : World where
  dataLakeSettings := []
  resourcePages := [[]]
  registeredArns := []
  databasePages := [[]]
  tablePages := fun _ => [[]]
  permissionPages := [[pSentinel]]
  permState := [pSentinel]

/-- Witness for C2 at a concrete service state: the sentinel record
survives the revoke phase and the theorem applies to it. -/
theorem claim_C2_witness :
    pSentinel.principal.dataLakePrincipalIdentifier = sentinelId := by
  have hcat : getCatalogId pSentinel.resource = some (.str "111122223333") := by
    simp only [pSentinel]
    simp [getCatalogId]
  have h2 : ownedCatalogId "111122223333" (getCatalogId pSentinel.resource) = true := by
    rw [hcat]
    rfl
  have h1 : pSentinel ∈ (phase5Run "111122223333" worldC2 noFailures).2 := by
    simp only [phase5Run, worldC2]
    rw [show fetchAllPages [[pSentinel]] = [pSentinel] from rfl]
    rw [revokeLoop]
    rw [if_pos (show pSentinel.principal.dataLakePrincipalIdentifier = sentinelId from rfl)]
    rw [revokeLoop]
    simp
  exact claim_C2 "111122223333" worldC2 noFailures rfl (fun _ => rfl) pSentinel h1 h2

/-- C4: the run after confirmation completes normally exactly when every
non-revoke call it attempts succeeds; the right-hand side never mentions
revoke failures, so an exception from revoke_permissions never ends the
run, while a failure of any other attempted remote call does.  Moreover
the trace of attempted revoke calls is the same under every failure
pattern: a revoke failure never prevents later records from being
processed. -/
theorem claim_C4 (acct : String) (w : World) (f : Failures) :
    ((runAfterConfirm acct w f).2 = true ↔ nonRevokeOk w f) ∧
    (∀ st ps, (revokeLoop acct f st ps).1 =
      (ps.filter (shouldRevoke acct)).map (fun p => ApiCall.revokePermissions p)) :=
  ⟨runAfterConfirm_ok acct w f, fun st ps => revokeLoop_trace acct f ps st⟩

/-- A failure pattern under which every revoke call raises and every
other call succeeds. -/
def revokeOnlyFailures : Failures where
  putSettings := false
  dereg := fun _ => false
  grant := fun _ => false
  updateDb := fun _ => false
  revoke := fun _ => true

/-- Witness for C4: even when every revoke call raises, the run
completes normally. -/
theorem claim_C4_witness :
    (runAfterConfirm "111122223333" sampleWorld revokeOnlyFailures).2 = true := by
  apply (claim_C4 "111122223333" sampleWorld revokeOnlyFailures).1.mpr
  refine ⟨rfl, fun r _ => rfl, rfl, fun d _ _ => ⟨rfl, rfl, fun t _ _ => rfl⟩⟩

theorem andThen_mem_right (a b : List ApiCall × Bool) (c : ApiCall)
    (ha : a.2 = true) (hc : c ∈ b.1) : c ∈ (andThen a b).1 := by
  unfold andThen
  rw [if_pos ha]
  exact List.mem_append_right _ hc

theorem andThen_mem_left (a b : List ApiCall × Bool) (c : ApiCall)
    (hc : c ∈ a.1) : c ∈ (andThen a b).1 := by
  unfold andThen
  split
  · exact List.mem_append_left _ hc
  · exact hc

/-- Every mutating call in the trace of a full invocation has one of
five shapes, each tied to the phase that issued it. -/
theorem runTrace_shapes (answers : List String) (acct : String) (w : World) (f : Failures)
    (c : ApiCall) (hc : c ∈ (runProgram answers acct w f).1) :
    c = .putDataLakeSettings (updatedDataLakeSettings w.dataLakeSettings) ∨
    (∃ arn, c = .deregisterResource arn) ∨
    c = .grantPermissions iamAllowedPrincipal .catalog ["CREATE_DATABASE"] [] ∨
    (∃ d, d ∈ paginatorCollect w.databasePages ∧ d.isResourceLink = false ∧
      (c = .grantPermissions iamAllowedPrincipal (.database d.name) ["ALL"] [] ∨
       c = .updateDatabase d.name (buildDatabaseInput d) ∨
       ∃ t, t ∈ paginatorCollect (w.tablePages d.name) ∧ t.isResourceLink = false ∧
         c = .grantPermissions iamAllowedPrincipal (.table d.name t.name) ["ALL"] [])) ∨
    (∃ p, c = .revokePermissions p) := by
  have hc' : c ∈ (runAfterConfirm acct w f).1 := by
    simp only [runProgram] at hc
    cases hp : promptLoop answers with
    | proceed => rw [hp] at hc; exact hc
    | exitZero => rw [hp] at hc; simp at hc
    | eofError => rw [hp] at hc; simp at hc
  unfold runAfterConfirm at hc'
  rcases andThen_mem _ _ _ hc' with h | h
  · left
    simpa [phase1] using h
  rcases andThen_mem _ _ _ h with h | h
  · right; left
    exact deregLoop_mem f _ _ c (by simpa [phase2] using h)
  rcases andThen_mem _ _ _ h with h | h
  · right; right; left
    simpa [phase3] using h
  rcases andThen_mem _ _ _ h with h | h
  · right; right; right; left
    exact databaseLoop_mem f _ _ c (by simpa [phase4] using h)
  · right; right; right; right
    have hmem : c ∈ (phase5Run acct w f).1 := by simpa [phase5] using h
    unfold phase5Run at hmem
    rw [revokeLoop_trace] at hmem
    obtain ⟨p, _, hp⟩ := List.mem_map.mp hmem
    exact ⟨p, hp.symm⟩

/-- C5: every grant_permissions call of the whole program whose resource
is a database or a table corresponds to a listed non-resource-link
database record (and, for a table, additionally to a listed
non-resource-link table record of that database); a database or table
listed only as a resource link is never granted permissions. -/
theorem claim_C5 (answers : List String) (acct : String) (w : World) (f : Failures)
    (c : ApiCall) (hc : c ∈ (runProgram answers acct w f).1) :
    (∀ pr n ps gs, c = ApiCall.grantPermissions pr (.database n) ps gs →
      ∃ d, d ∈ paginatorCollect w.databasePages ∧ d.isResourceLink = false ∧ d.name = n) ∧
    (∀ pr dn tn ps gs, c = ApiCall.grantPermissions pr (.table dn tn) ps gs →
      ∃ d, d ∈ paginatorCollect w.databasePages ∧ d.isResourceLink = false ∧ d.name = dn ∧
        ∃ t, t ∈ paginatorCollect (w.tablePages dn) ∧ t.isResourceLink = false ∧
          t.name = tn) := by
  rcases runTrace_shapes answers acct w f c hc with
    h | ⟨arn, h⟩ | h | ⟨d, hd, hlf, hsh⟩ | ⟨p, h⟩
  · exact ⟨fun pr n ps gs heq => by rw [h] at heq; simp at heq,
      fun pr dn tn ps gs heq => by rw [h] at heq; simp at heq⟩
  · exact ⟨fun pr n ps gs heq => by rw [h] at heq; simp at heq,
      fun pr dn tn ps gs heq => by rw [h] at heq; simp at heq⟩
  · exact ⟨fun pr n ps gs heq => by rw [h] at heq; simp at heq,
      fun pr dn tn ps gs heq => by rw [h] at heq; simp at heq⟩
  · constructor
    · intro pr n ps gs heq
      rcases hsh with h | h | ⟨t, ht, htl, h⟩
      · rw [h] at heq
        simp only [ApiCall.grantPermissions.injEq, LFResource.database.injEq] at heq
        exact ⟨d, hd, hlf, heq.2.1⟩
      · rw [h] at heq
        simp at heq
      · rw [h] at heq
        simp at heq
    · intro pr dn tn ps gs heq
      rcases hsh with h | h | ⟨t, ht, htl, h⟩
      · rw [h] at heq
        simp at heq
      · rw [h] at heq
        simp at heq
      · rw [h] at heq
        simp only [ApiCall.grantPermissions.injEq, LFResource.table.injEq] at heq
        obtain ⟨-, ⟨hdn, htn⟩, -, -⟩ := heq
        subst hdn
        exact ⟨d, hd, hlf, rfl, t, ht, htl, htn⟩
  · exact ⟨fun pr n ps gs heq => by rw [h] at heq; simp at heq,
      fun pr dn tn ps gs heq => by rw [h] at heq; simp at heq⟩

/-- A service state holding one non-link database and nothing else, used
to instantiate the run-level theorems. -/
def worldC5 : World where
  dataLakeSettings := []
  resourcePages := [[]]
  registeredArns := []
  databasePages := [[sampleDb]]
  tablePages := fun _ => [[]]
  permissionPages := [[]]
  permState := []

/-- Witness for C5: the database grant of the concrete run corresponds
to a listed non-link database record. -/
theorem claim_C5_witness :
    ∃ d, d ∈ paginatorCollect worldC5.databasePages ∧ d.isResourceLink = false ∧
      d.name = "salesdb" := by
  have hc : ApiCall.grantPermissions iamAllowedPrincipal (.database "salesdb") ["ALL"] [] ∈
      (runProgram ["y"] "111122223333" worldC5 noFailures).1 := by
    simp only [runProgram]
    rw [show promptLoop ["y"] = .proceed from rfl]
    unfold runAfterConfirm
    apply andThen_mem_right _ _ _ rfl
    apply andThen_mem_right _ _ _ rfl
    apply andThen_mem_right _ _ _ rfl
    apply andThen_mem_left
    rw [show (phase4 worldC5 noFailures).1 =
      [ApiCall.grantPermissions iamAllowedPrincipal (.database "salesdb") ["ALL"] [],
       ApiCall.updateDatabase "salesdb" (buildDatabaseInput sampleDb)] from rfl]
    simp
  exact (claim_C5 ["y"] "111122223333" worldC5 noFailures _ hc).1
    iamAllowedPrincipal "salesdb" ["ALL"] [] rfl

theorem buildDatabaseInput_eq (d : DatabaseRecord) :
    buildDatabaseInput d =
      { name := d.name
        description := d.description.getD ""
        locationUri := match d.locationUri with
          | some u => if u ≠ "" then some u else none
          | none => none
        parameters := d.parameters.getD []
        createTableDefaultPermissions := sentinelAllGrant } := by
  rcases hu : d.locationUri with _ | u <;>
    simp only [buildDatabaseInput, sentinelAllGrant, hu]
  by_cases he : u = "" <;> simp [he]

/-- C9: for every non-resource-link database, the DatabaseInput passed
to update_database keeps the fetched Name, Description (defaulting to
the empty string), Parameters (defaulting to the empty dict) and
LocationUri (present exactly when fetched present and non-empty), and
sets CreateTableDefaultPermissions to the single sentinel/ALL grant;
every update_database call of the step-4 loop carries exactly this
input for some listed non-link database. -/
theorem claim_C9 (d : DatabaseRecord) :
    (buildDatabaseInput d).name = d.name ∧
    (buildDatabaseInput d).description = d.description.getD "" ∧
    (buildDatabaseInput d).parameters = d.parameters.getD [] ∧
    (∀ u, (buildDatabaseInput d).locationUri = some u ↔ d.locationUri = some u ∧ u ≠ "") ∧
    (buildDatabaseInput d).createTableDefaultPermissions = sentinelAllGrant ∧
    (∀ (f : Failures) (tables : String → List (List TableRecord)) (ds : List DatabaseRecord)
      (n : String) (inp : DatabaseInput),
      ApiCall.updateDatabase n inp ∈ (databaseLoop f tables ds).1 →
      ∃ d', d' ∈ ds ∧ d'.isResourceLink = false ∧ n = d'.name ∧ inp = buildDatabaseInput d') := by
  refine ⟨?_, ?_, ?_, ?_, ?_, ?_⟩
  · rw [buildDatabaseInput_eq]
  · rw [buildDatabaseInput_eq]
  · rw [buildDatabaseInput_eq]
  · intro u
    rw [buildDatabaseInput_eq]
    rcases hu : d.locationUri with _ | v
    · simp
    · by_cases he : v = ""
      · simp [he]
        exact fun h => h.symm
      · simp only [ne_eq, he, not_false_eq_true, if_true, Option.some.injEq]
        constructor
        · rintro rfl
          exact ⟨rfl, he⟩
        · exact fun h => h.1.symm ▸ rfl
  · rw [buildDatabaseInput_eq]
  · intro f tables ds n inp hmem
    obtain ⟨d', hd', hlf, hsh⟩ := databaseLoop_mem f tables ds _ hmem
    rcases hsh with h | h | ⟨t, -, -, h⟩
    · simp at h
    · simp only [ApiCall.updateDatabase.injEq] at h
      exact ⟨d', hd', hlf, h.1, h.2⟩
    · simp at h

/-- Witness for C9 at a concrete database record and a concrete
step-4 loop run. -/
theorem claim_C9_witness :
    (buildDatabaseInput sampleDb).name = "salesdb" ∧
    (buildDatabaseInput sampleDb).locationUri = some "s3://bucket-one/sales" ∧
    (buildDatabaseInput sampleDb).createTableDefaultPermissions = sentinelAllGrant ∧
    ∃ d', d' ∈ [sampleDb] ∧ d'.isResourceLink = false ∧ "salesdb" = d'.name ∧
      buildDatabaseInput sampleDb = buildDatabaseInput d' := by
  refine ⟨(claim_C9 sampleDb).1.trans rfl, ?_, (claim_C9 sampleDb).2.2.2.2.1, ?_⟩
  · exact ((claim_C9 sampleDb).2.2.2.1 "s3://bucket-one/sales").mpr ⟨rfl, by decide⟩
  · apply (claim_C9 sampleDb).2.2.2.2.2 noFailures (fun _ => [[]]) [sampleDb] "salesdb"
      (buildDatabaseInput sampleDb)
    rw [show (databaseLoop noFailures (fun _ => [[]]) [sampleDb]).1 =
      [ApiCall.grantPermissions iamAllowedPrincipal (.database "salesdb") ["ALL"] [],
       ApiCall.updateDatabase "salesdb" (buildDatabaseInput sampleDb)] from rfl]
    simp

end UpdatePermission
